import Mathlib

/-!
Shallow embedding of the derived-state computations of the ReefConnect
web application (React/TypeScript, localStorage-backed), restricted to the
parts the verified properties talk about:

* `ScubaDexPage.scubaDex` — derivation of a per-user list of ScubaDex
  entries from the stored species-tag records;
* `StatsPage.stats` — per-user aggregate statistics;
* the badge-award pass of `StatsPage` (a `useMemo` that appends new
  `UserBadge` rows for badge definitions whose threshold is met);
* `LeaderboardPage` — per-user stats rows, friend-id scoping, and the
  metric sort;
* `DiveLogPage.handleDeleteDive` and `MediaGallery.handleDelete` — the
  two delete operations (the latter also removes the species tags of the
  deleted media record).

Modelling conventions: JavaScript numbers are modelled as rationals,
JavaScript string equality as `String` equality, a JavaScript `Set` used
only for its size or membership as `List.dedup` / list membership, and the
insertion-ordered JavaScript `Map` of the ScubaDex derivation as a list of
entries in insertion order.  `Array.prototype.sort` is stable in the
runtimes targeted by the code (ES2019 and later), so both sorts are
modelled by a stable insertion sort.  `String.prototype.localeCompare` is
modelled as code-point lexicographic comparison, which agrees with it on
the ASCII species names involved; none of the proved properties depend on
which total preorder the display sort uses.  The species catalog
(`mockSpeciesCatalog`) and the badge table (`badges`) are static data
files not included under the analysed sources, so the definitions are
parametrised by a `catalog : List Species` and a `defs : List Badge`.
-/

namespace ReefConnect

/-- Species catalog row (`Species` in `types/index.ts`). -/
structure Species where
  id : String
  commonName : String
  scientificName : String
  category : String
  deriving DecidableEq

/-- Species tag record (`SpeciesTag` in `types/index.ts`). -/
structure SpeciesTag where
  id : String
  mediaId : String
  speciesId : String
  userId : String
  createdAt : String
  deriving DecidableEq

/-- Media record (`Media` in `types/index.ts`); fields not read by the
embedded computations are omitted. -/
structure Media where
  id : String
  userId : String
  diveLogId : String
  deriving DecidableEq

/-- Dive log record (`DiveLog` in `types/index.ts`); only the fields read
by the embedded computations are kept, with the JavaScript numbers
`depth` and `duration` as rationals. -/
structure DiveLog where
  id : String
  userId : String
  depth : ℚ
  duration : ℚ
  deriving DecidableEq

/-- Derived ScubaDex entry (`ScubaDexEntry` in `types/index.ts`). -/
structure ScubaDexEntry where
  speciesId : String
  species : Species
  firstSeenDate : String
  encounterCount : Nat
  mediaIds : List String
  deriving DecidableEq

/-- Code-point comparison of character lists, the model of
`String.prototype.localeCompare` used by the display sorts. -/
def charsLe : List Char → List Char → Bool
  | [], _ => true
  | _ :: _, [] => false
  | a :: as, b :: bs =>
    if a.toNat < b.toNat then true
    else if b.toNat < a.toNat then false
    else charsLe as bs

/-- String comparison via `charsLe`. -/
def strLe (a b : String) : Bool :=
  charsLe a.data b.data

/-- Insert `x` into `l` after every element `y` with `le y x`; the
insertion step of a stable insertion sort. -/
def insertStable (le : α → α → Bool) (x : α) : List α → List α
  | [] => [x]
  | y :: ys => if le y x then y :: insertStable le x ys else x :: y :: ys

/-- Stable sort, the model of `Array.prototype.sort` (stable per
ES2019): elements are inserted in input order, and an element inserted
later is placed after every earlier element it compares equal to. -/
def stableSort (le : α → α → Bool) (l : List α) : List α :=
  l.foldl (fun acc x => insertStable le x acc) []

/-- The species-tag records of one user
(`speciesTags.filter((tag) => tag.userId === user.id)`). -/
def userTags (uid : String) (speciesTags : List SpeciesTag) : List SpeciesTag :=
  speciesTags.filter (fun t => t.userId == uid)

/-- One step of the `userTags.forEach` loop of `ScubaDexPage.scubaDex`:
skip the tag if its species is not in the catalog; if an entry for the
species already exists, increment `encounterCount` and add the media id
to `mediaIds` unless already present; otherwise append a fresh entry. -/
def upsertTag (catalog : List Species) (acc : List ScubaDexEntry)
    (tag : SpeciesTag) : List ScubaDexEntry :=
  match catalog.find? (fun s => s.id == tag.speciesId) with
  | none => acc
  | some species =>
    if acc.any (fun e => e.speciesId == tag.speciesId) then
      acc.map (fun e =>
        if e.speciesId == tag.speciesId then
          { e with
            encounterCount := e.encounterCount + 1
            mediaIds :=
              if e.mediaIds.contains tag.mediaId then e.mediaIds
              else e.mediaIds ++ [tag.mediaId] }
        else e)
    else
      acc ++ [{ speciesId := tag.speciesId
                species := species
                firstSeenDate := tag.createdAt
                encounterCount := 1
                mediaIds := [tag.mediaId] }]

/-- The insertion-ordered values of the `speciesMap` built by
`ScubaDexPage.scubaDex` over the tags of user `uid`. -/
def scubaDexEntries (catalog : List Species) (uid : String)
    (speciesTags : List SpeciesTag) : List ScubaDexEntry :=
  (userTags uid speciesTags).foldl (upsertTag catalog) []

/-- The derived ScubaDex of `ScubaDexPage` for user `uid`: the map
values, sorted by common name for display. -/
def scubaDex (catalog : List Species) (uid : String)
    (speciesTags : List SpeciesTag) : List ScubaDexEntry :=
  stableSort (fun a b => strLe a.species.commonName b.species.commonName)
    (scubaDexEntries catalog uid speciesTags)

/-- Earned badge row (`UserBadge` in `types/index.ts`). -/
structure UserBadge where
  userId : String
  badgeId : String
  earnedAt : String
  deriving DecidableEq

/-- The record returned by the `stats` memo of `StatsPage`. -/
structure StatsResult where
  totalDives : Nat
  totalSpecies : Nat
  deepestDive : ℚ
  totalDiveTime : ℚ
  totalMedia : Nat
  totalBadges : Nat
  deriving DecidableEq

/-- The `stats` memo of `StatsPage`: per-user aggregates over the stored
dives, media, species tags and earned badges.  `new Set(...).size` is
modelled as the length of the deduplicated list. -/
def stats (uid : String) (diveLogs : List DiveLog) (media : List Media)
    (speciesTags : List SpeciesTag) (userBadges : List UserBadge) : StatsResult :=
  let userDives := diveLogs.filter (fun d => d.userId == uid)
  let userMedia := media.filter (fun m => m.userId == uid)
  let uTags := speciesTags.filter (fun t => t.userId == uid)
  { totalDives := userDives.length
    totalSpecies := ((uTags.map (fun t => t.speciesId)).dedup).length
    deepestDive := userDives.foldl (fun m d => max m d.depth) 0
    totalDiveTime := userDives.foldl (fun s d => s + d.duration) 0
    totalMedia := userMedia.length
    totalBadges := (userBadges.filter (fun ub => ub.userId == uid)).length }

/-- The `handleDeleteDive` operation of `DiveLogPage`: remove the dive
with the given id from the stored dive-log list. -/
def handleDeleteDive (diveLogs : List DiveLog) (diveId : String) : List DiveLog :=
  diveLogs.filter (fun d => !(d.id == diveId))

/-- The `handleDelete` operation of `MediaGallery`: remove the media
record with the given id and every species tag that referenced it,
returning the new media and species-tag stores. -/
def handleDelete (media : List Media) (speciesTags : List SpeciesTag)
    (mediaId : String) : List Media × List SpeciesTag :=
  (media.filter (fun m => !(m.id == mediaId)),
   speciesTags.filter (fun t => !(t.mediaId == mediaId)))

/-- Badge category (`Badge.category` in `types/index.ts`). -/
inductive BadgeCategory
  | dives
  | depth
  | species
  | media
  | social
  deriving DecidableEq

/-- Badge definition (`Badge` in `types/index.ts`); the display-only
fields are omitted and the numeric `requirement` is a rational. -/
structure Badge where
  id : String
  category : BadgeCategory
  requirement : ℚ
  deriving DecidableEq

/-- The `earned` computation of the badge-award memo of `StatsPage`: a
`switch` over the category with no `social` case, so a `social` badge
leaves `earned` at its initial `false`. -/
def badgeEarned (st : StatsResult) (b : Badge) : Bool :=
  match b.category with
  | .dives => decide ((st.totalDives : ℚ) ≥ b.requirement)
  | .depth => decide (st.deepestDive ≥ b.requirement)
  | .species => decide ((st.totalSpecies : ℚ) ≥ b.requirement)
  | .media => decide ((st.totalMedia : ℚ) ≥ b.requirement)
  | .social => false

/-- The `alreadyEarned` check of the badge-award memo: some stored row
matches the user and badge ids. -/
def alreadyEarned (userBadges : List UserBadge) (uid bid : String) : Bool :=
  userBadges.any (fun ub => ub.userId == uid && ub.badgeId == bid)

/-- The `newBadges` accumulation of the badge-award memo: for each badge
definition, skip it if already earned, else push an award row when the
threshold test passes.  The timestamp `new Date().toISOString()` is the
parameter `now`. -/
def newBadges (defs : List Badge) (st : StatsResult) (uid now : String)
    (userBadges : List UserBadge) : List UserBadge :=
  defs.foldl (fun acc b =>
    if alreadyEarned userBadges uid b.id then acc
    else if badgeEarned st b then
      acc ++ [{ userId := uid, badgeId := b.id, earnedAt := now }]
    else acc) []

/-- One run of the badge-award memo: append the new awards to the stored
collection (`setUserBadges([...userBadges, ...newBadges])`, a no-op when
nothing was earned). -/
def awardBadges (defs : List Badge) (st : StatsResult) (uid now : String)
    (userBadges : List UserBadge) : List UserBadge :=
  let nb := newBadges defs st uid now userBadges
  if nb.length > 0 then userBadges ++ nb else userBadges

/-- A sequence of badge-evaluation runs, each with its own stats
snapshot, user id and timestamp, threaded through the stored
badge-award collection. -/
def runBadgeChecks (defs : List Badge)
    (runs : List (StatsResult × String × String))
    (userBadges : List UserBadge) : List UserBadge :=
  runs.foldl (fun ub r => awardBadges defs r.1 r.2.1 r.2.2 ub) userBadges

/-- The `(userId, badgeId)` pairs of the stored badge-award collection. -/
def badgePairs (userBadges : List UserBadge) : List (String × String) :=
  userBadges.map (fun r => (r.userId, r.badgeId))

/-- User record (`User` in `types/index.ts`); only the id is read by the
embedded computations. -/
structure User where
  id : String
  username : String
  deriving DecidableEq

/-- Friendship record (`Friendship` in `types/index.ts`). -/
structure Friendship where
  id : String
  userId1 : String
  userId2 : String
  deriving DecidableEq

/-- Per-user stats row of `LeaderboardPage` (`UserStats` in
`types/index.ts`). -/
structure UserStats where
  userId : String
  totalDives : Nat
  totalSpecies : Nat
  deepestDive : ℚ
  totalDiveTime : ℚ
  totalMedia : Nat
  totalBadges : Nat
  deriving DecidableEq

/-- The numeric leaderboard metrics (`metric: keyof UserStats` in
`LeaderboardPage`, restricted to the numeric fields the page offers). -/
inductive Metric
  | totalDives
  | totalSpecies
  | deepestDive
  | totalDiveTime
  | totalMedia
  | totalBadges
  deriving DecidableEq

/-- The value `s[metric]` read by the leaderboard comparator. -/
def metricVal (m : Metric) (s : UserStats) : ℚ :=
  match m with
  | .totalDives => s.totalDives
  | .totalSpecies => s.totalSpecies
  | .deepestDive => s.deepestDive
  | .totalDiveTime => s.totalDiveTime
  | .totalMedia => s.totalMedia
  | .totalBadges => s.totalBadges

/-- The `userStats` memo of `LeaderboardPage`: one stats row per stored
user, in users-store order (`totalBadges` is hard-coded to 0 there). -/
def computeUserStats (users : List User) (diveLogs : List DiveLog)
    (media : List Media) (speciesTags : List SpeciesTag) : List UserStats :=
  users.map (fun u =>
    let userDives := diveLogs.filter (fun d => d.userId == u.id)
    let userMedia := media.filter (fun m => m.userId == u.id)
    let uTags := speciesTags.filter (fun t => t.userId == u.id)
    { userId := u.id
      totalDives := userDives.length
      totalSpecies := ((uTags.map (fun t => t.speciesId)).dedup).length
      deepestDive := userDives.foldl (fun m d => max m d.depth) 0
      totalDiveTime := userDives.foldl (fun s d => s + d.duration) 0
      totalMedia := userMedia.length
      totalBadges := 0 })

/-- The friend-id set of `LeaderboardPage`: the other endpoint of every
friendship involving `me`, with `friendIds.add(user.id)` modelled as the
final append of `me`; only membership in this list is ever used. -/
def friendIds (friendships : List Friendship) (me : String) : List String :=
  let mine := friendships.filter (fun f => f.userId1 == me || f.userId2 == me)
  (mine.map (fun f => if f.userId1 == me then f.userId2 else f.userId1)) ++ [me]

/-- Leaderboard scope (`LeaderboardType` in `LeaderboardPage`). -/
inductive LeaderboardType
  | all
  | friends
  deriving DecidableEq

/-- The pre-sort list of the `filteredStats` memo: all stats rows, or
only the rows whose user id is in the friend-id set. -/
def leaderboardPool (users : List User) (diveLogs : List DiveLog)
    (media : List Media) (speciesTags : List SpeciesTag)
    (friendships : List Friendship) (me : String)
    (ltype : LeaderboardType) : List UserStats :=
  let rows := computeUserStats users diveLogs media speciesTags
  match ltype with
  | .friends => rows.filter (fun s => (friendIds friendships me).contains s.userId)
  | .all => rows

/-- The `filteredStats` memo of `LeaderboardPage`: the pool sorted by
`(a, b) => b[metric] - a[metric]`, i.e. stably by descending metric
value. -/
def filteredStats (users : List User) (diveLogs : List DiveLog)
    (media : List Media) (speciesTags : List SpeciesTag)
    (friendships : List Friendship) (me : String)
    (ltype : LeaderboardType) (m : Metric) : List UserStats :=
  stableSort (fun a b => decide (metricVal m b ≤ metricVal m a))
    (leaderboardPool users diveLogs media speciesTags friendships me ltype)

/-! Concrete fixtures, used only to instantiate theorems and to exhibit
counterexamples. -/

/-- A two-species catalog fixture. -/
def demoCatalog : List Species :=
  [{ id := "sp-003", commonName := "Manta Ray",
     scientificName := "Mobula birostris", category := "Rays" },
   { id := "sp-001", commonName := "Clownfish",
     scientificName := "Amphiprioninae", category := "Fish" }]

/-- A species tag of user u1 for species sp-003 on media m1. -/
def tagA : SpeciesTag :=
  { id := "tag-1", mediaId := "m1", speciesId := "sp-003",
    userId := "u1", createdAt := "2024-12-20" }

/-- A second tag of user u1 for the same species on the same media. -/
def tagB : SpeciesTag :=
  { id := "tag-2", mediaId := "m1", speciesId := "sp-003",
    userId := "u1", createdAt := "2024-12-21" }

/-- A tag of user u1 whose species id is not in the catalog. -/
def tagU : SpeciesTag :=
  { id := "tag-9", mediaId := "m1", speciesId := "sp-999",
    userId := "u1", createdAt := "2024-12-22" }

/-! Generic facts about the stable sort. -/

theorem insertStable_perm (le : α → α → Bool) (x : α) :
    ∀ l : List α, (insertStable le x l).Perm (x :: l)
  | [] => by simp [insertStable]
  | y :: ys => by
    simp only [insertStable]
    split
    · exact ((insertStable_perm le x ys).cons y).trans (List.Perm.swap x y ys)
    · exact List.Perm.refl _

theorem foldl_insertStable_perm (le : α → α → Bool) :
    ∀ (l acc : List α),
      (l.foldl (fun acc x => insertStable le x acc) acc).Perm (acc ++ l)
  | [], acc => by simp
  | x :: l, acc => by
    simp only [List.foldl_cons]
    refine (foldl_insertStable_perm le l (insertStable le x acc)).trans ?_
    refine ((insertStable_perm le x acc).append_right l).trans ?_
    simpa using List.perm_middle.symm

theorem stableSort_perm (le : α → α → Bool) (l : List α) :
    (stableSort le l).Perm l := by
  simpa [stableSort] using foldl_insertStable_perm le l []

theorem insertStable_pairwise (le : α → α → Bool)
    (htrans : ∀ a b c, le a b = true → le b c = true → le a c = true)
    (htot : ∀ a b, le a b = true ∨ le b a = true) (x : α) :
    ∀ l : List α, l.Pairwise (fun a b => le a b = true) →
      (insertStable le x l).Pairwise (fun a b => le a b = true)
  | [], _ => by simp [insertStable]
  | y :: ys, h => by
    rw [List.pairwise_cons] at h
    obtain ⟨hy, hys⟩ := h
    simp only [insertStable]
    split
    case isTrue hyx =>
      rw [List.pairwise_cons]
      refine ⟨?_, insertStable_pairwise le htrans htot x ys hys⟩
      intro z hz
      rcases List.mem_cons.mp ((insertStable_perm le x ys).mem_iff.mp hz) with rfl | hz
      · exact hyx
      · exact hy z hz
    case isFalse hyx =>
      have hxy : le x y = true := (htot x y).resolve_right (by simpa using hyx)
      rw [List.pairwise_cons]
      refine ⟨?_, List.pairwise_cons.mpr ⟨hy, hys⟩⟩
      intro z hz
      rcases List.mem_cons.mp hz with rfl | hz
      · exact hxy
      · exact htrans x y z hxy (hy z hz)

theorem foldl_insertStable_pairwise (le : α → α → Bool)
    (htrans : ∀ a b c, le a b = true → le b c = true → le a c = true)
    (htot : ∀ a b, le a b = true ∨ le b a = true) :
    ∀ (l acc : List α), acc.Pairwise (fun a b => le a b = true) →
      (l.foldl (fun acc x => insertStable le x acc) acc).Pairwise
        (fun a b => le a b = true)
  | [], _, h => h
  | x :: l, acc, h => by
    simp only [List.foldl_cons]
    exact foldl_insertStable_pairwise le htrans htot l _
      (insertStable_pairwise le htrans htot x acc h)

theorem stableSort_pairwise (le : α → α → Bool)
    (htrans : ∀ a b c, le a b = true → le b c = true → le a c = true)
    (htot : ∀ a b, le a b = true ∨ le b a = true) (l : List α) :
    (stableSort le l).Pairwise (fun a b => le a b = true) :=
  foldl_insertStable_pairwise le htrans htot l [] (by simp)

/-! Facts about the ScubaDex derivation. -/

theorem upsertTag_count_pos (catalog : List Species)
    (acc : List ScubaDexEntry) (t : SpeciesTag)
    (h : ∀ e ∈ acc, 0 < e.encounterCount) :
    ∀ e ∈ upsertTag catalog acc t, 0 < e.encounterCount := by
  intro e he
  unfold upsertTag at he
  split at he
  · exact h e he
  · split at he
    · obtain ⟨e0, he0, rfl⟩ := List.mem_map.mp he
      split
      · exact Nat.succ_pos _
      · exact h e0 he0
    · rcases List.mem_append.mp he with h1 | h2
      · exact h e h1
      · rw [List.mem_singleton] at h2
        subst h2
        exact Nat.one_pos

theorem foldl_upsertTag_count_pos (catalog : List Species) :
    ∀ (l : List SpeciesTag) (acc : List ScubaDexEntry),
      (∀ e ∈ acc, 0 < e.encounterCount) →
      ∀ e ∈ l.foldl (upsertTag catalog) acc, 0 < e.encounterCount
  | [], _, h => h
  | t :: l, acc, h => by
    simp only [List.foldl_cons]
    exact foldl_upsertTag_count_pos catalog l _ (upsertTag_count_pos catalog acc t h)

/-- The species s sp-003 ScubaDex entry derived from the single tag
`tagA`. -/
def entryA : ScubaDexEntry :=
  { speciesId := "sp-003"
    species := { id := "sp-003", commonName := "Manta Ray",
                 scientificName := "Mobula birostris", category := "Rays" }
    firstSeenDate := "2024-12-20"
    encounterCount := 1
    mediaIds := ["m1"] }

/-- C8: every entry present in a derived ScubaDex has a strictly
positive encounter count, for every catalog, user and species-tag store;
in particular no entry with encounterCount = 0 ever appears, so an entry
exists if and only if its count is positive. -/
theorem scubaDex_entry_count_pos (catalog : List Species) (uid : String)
    (speciesTags : List SpeciesTag) (e : ScubaDexEntry)
    (he : e ∈ scubaDex catalog uid speciesTags) : 0 < e.encounterCount := by
  have hmem : e ∈ scubaDexEntries catalog uid speciesTags :=
    (stableSort_perm _ _).mem_iff.mp he
  exact foldl_upsertTag_count_pos catalog _ [] (by simp) e hmem

/-- Witness for C8 at a concrete state: the entry derived from `tagA`
is in the ScubaDex and has positive count. -/
theorem scubaDex_entry_count_pos_witness :
    entryA ∈ scubaDex demoCatalog "u1" [tagA] ∧ 0 < entryA.encounterCount :=
  ⟨by decide, scubaDex_entry_count_pos demoCatalog "u1" [tagA] entryA (by decide)⟩

/-- C1 counterexample: delivering the same SpeciesTagged record twice is
not idempotent — with the duplicate present the derived entry has
encounterCount 2, and the derived ScubaDex differs from the one obtained
from a single delivery. -/
theorem scubaDex_duplicate_tag_not_idempotent :
    (scubaDex demoCatalog "u1" [tagA, tagA]).map ScubaDexEntry.encounterCount
        = [2] ∧
      scubaDex demoCatalog "u1" [tagA, tagA] ≠ scubaDex demoCatalog "u1" [tagA] :=
  ⟨by decide, by decide⟩

/-- C1 amended: the derivation counts every delivered record, so a
duplicated SpeciesTagged record yields encounterCount 2 (one per copy,
not the single count idempotence would demand), while the evidence
media-id list is the same as for a single delivery. -/
theorem scubaDex_duplicate_tag_counts_twice (catalog : List Species)
    (uid : String) (t : SpeciesTag) (sp : Species)
    (hfind : catalog.find? (fun s => s.id == t.speciesId) = some sp)
    (huser : t.userId = uid) :
    scubaDex catalog uid [t, t] =
      [{ speciesId := t.speciesId, species := sp, firstSeenDate := t.createdAt,
         encounterCount := 2, mediaIds := [t.mediaId] }] ∧
    scubaDex catalog uid [t] =
      [{ speciesId := t.speciesId, species := sp, firstSeenDate := t.createdAt,
         encounterCount := 1, mediaIds := [t.mediaId] }] := by
  constructor <;>
    simp [scubaDex, scubaDexEntries, userTags, huser, upsertTag, hfind,
      stableSort, insertStable]

/-- Witness for the amended C1 at a concrete tag and catalog. -/
theorem scubaDex_duplicate_tag_counts_twice_witness :
    demoCatalog.find? (fun s => s.id == tagA.speciesId) = some entryA.species ∧
      tagA.userId = "u1" ∧
      scubaDex demoCatalog "u1" [tagA, tagA] =
        [{ speciesId := tagA.speciesId, species := entryA.species,
           firstSeenDate := tagA.createdAt, encounterCount := 2,
           mediaIds := [tagA.mediaId] }] :=
  ⟨by decide, by decide,
    (scubaDex_duplicate_tag_counts_twice demoCatalog "u1" tagA entryA.species
      (by decide) (by decide)).1⟩

/-- Shape of the entries produced by one `upsertTag` step, assuming the
incoming tag carries a media id not yet recorded for its species: every
output entry is an untouched input entry, an input entry for the tag s
species with count bumped and the media id appended, or the fresh entry
for the tag. -/
theorem upsertTag_step (catalog : List Species) (acc : List ScubaDexEntry)
    (t : SpeciesTag)
    (hmedia : ∀ e ∈ acc, e.speciesId = t.speciesId → t.mediaId ∉ e.mediaIds) :
    ∀ e2 ∈ upsertTag catalog acc t,
      e2 ∈ acc ∨
      (∃ e ∈ acc, e.speciesId = t.speciesId ∧
        e2 = { e with
               encounterCount := e.encounterCount + 1
               mediaIds := e.mediaIds ++ [t.mediaId] }) ∨
      (e2.speciesId = t.speciesId ∧ e2.encounterCount = 1 ∧
        e2.mediaIds = [t.mediaId]) := by
  intro e2 he2
  unfold upsertTag at he2
  split at he2
  · exact Or.inl he2
  · split at he2
    · obtain ⟨e, he, rfl⟩ := List.mem_map.mp he2
      by_cases hsp : e.speciesId = t.speciesId
      · have hnm : t.mediaId ∉ e.mediaIds := hmedia e he hsp
        refine Or.inr (Or.inl ⟨e, he, hsp, ?_⟩)
        simp [hsp, hnm]
      · simp only [beq_iff_eq, if_neg hsp]
        exact Or.inl he
    · rcases List.mem_append.mp he2 with h1 | h2
      · exact Or.inl h1
      · rw [List.mem_singleton] at h2
        subst h2
        exact Or.inr (Or.inr ⟨rfl, rfl, rfl⟩)

/-- Invariant of the ScubaDex fold: when the pending tags never repeat a
media id within one species (relative to each other and to the
accumulator), every resulting entry has its encounter count equal to the
size of its media-id list. -/
theorem foldl_upsertTag_count_eq_media (catalog : List Species) :
    ∀ (l : List SpeciesTag) (acc : List ScubaDexEntry),
      l.Pairwise (fun a b => a.speciesId = b.speciesId → a.mediaId ≠ b.mediaId) →
      (∀ t ∈ l, ∀ e ∈ acc, e.speciesId = t.speciesId → t.mediaId ∉ e.mediaIds) →
      (∀ e ∈ acc, e.encounterCount = e.mediaIds.length) →
      ∀ e ∈ l.foldl (upsertTag catalog) acc, e.encounterCount = e.mediaIds.length
  | [], _, _, _, hcnt => hcnt
  | t :: l, acc, hpw, hdisj, hcnt => by
    obtain ⟨hhead, htail⟩ := List.pairwise_cons.mp hpw
    have hmedia : ∀ e ∈ acc, e.speciesId = t.speciesId → t.mediaId ∉ e.mediaIds :=
      fun e he h => hdisj t (by simp) e he h
    simp only [List.foldl_cons]
    apply foldl_upsertTag_count_eq_media catalog l (upsertTag catalog acc t) htail
    · intro t2 ht2 e2 he2 hsp
      rcases upsertTag_step catalog acc t hmedia e2 he2 with h | h | h
      · exact hdisj t2 (List.mem_cons_of_mem t ht2) e2 h hsp
      · obtain ⟨e, he, hesp, heq⟩ := h
        subst heq
        have hsp2 : e.speciesId = t2.speciesId := hsp
        show t2.mediaId ∉ e.mediaIds ++ [t.mediaId]
        intro hmem
        rcases List.mem_append.mp hmem with hm | hm
        · exact hdisj t2 (List.mem_cons_of_mem t ht2) e he hsp2 hm
        · rw [List.mem_singleton] at hm
          exact hhead t2 ht2 (hesp.symm.trans hsp2) hm.symm
      · obtain ⟨h1, _, h3⟩ := h
        rw [h3]
        intro hmem
        rw [List.mem_singleton] at hmem
        exact hhead t2 ht2 (h1.symm.trans hsp) hmem.symm
    · intro e2 he2
      rcases upsertTag_step catalog acc t hmedia e2 he2 with h | h | h
      · exact hcnt e2 h
      · obtain ⟨e, he, hesp, heq⟩ := h
        subst heq
        show e.encounterCount + 1 = (e.mediaIds ++ [t.mediaId]).length
        simp [hcnt e he]
      · obtain ⟨_, h2, h3⟩ := h
        simp [h2, h3]

/-- C2 counterexample: two surviving tags of the same user for the same
species on the same media give an entry with encounterCount 2 but a
single evidence media id, violating encounterCount = |evidenceMediaIds|. -/
theorem scubaDex_count_evidence_mismatch :
    (scubaDex demoCatalog "u1" [tagA, tagB]).map
        (fun e => (e.encounterCount, e.mediaIds.length)) = [(2, 1)] := by
  decide

/-- C2 amended: every derived ScubaDex entry satisfies
encounterCount = |mediaIds| provided no two of the user s tags for one
species reference the same media id; with such same-media duplicates the
count strictly exceeds the evidence size. -/
theorem scubaDex_count_eq_evidence (catalog : List Species) (uid : String)
    (speciesTags : List SpeciesTag) (e : ScubaDexEntry)
    (hpw : (userTags uid speciesTags).Pairwise
      (fun a b => a.speciesId = b.speciesId → a.mediaId ≠ b.mediaId))
    (he : e ∈ scubaDex catalog uid speciesTags) :
    e.encounterCount = e.mediaIds.length := by
  have hmem : e ∈ scubaDexEntries catalog uid speciesTags :=
    (stableSort_perm _ _).mem_iff.mp he
  exact foldl_upsertTag_count_eq_media catalog _ [] hpw (by simp) (by simp) e hmem

/-- A tag of user u1 for species sp-003 on a second media m2. -/
def tagC : SpeciesTag :=
  { id := "tag-3", mediaId := "m2", speciesId := "sp-003",
    userId := "u1", createdAt := "2024-12-23" }

/-- Witness for the amended C2 at a concrete state with two
distinct-media tags for one species. -/
theorem scubaDex_count_eq_evidence_witness :
    (userTags "u1" [tagA, tagC]).Pairwise
        (fun a b => a.speciesId = b.speciesId → a.mediaId ≠ b.mediaId) ∧
      { entryA with encounterCount := 2, mediaIds := ["m1", "m2"] } ∈
        scubaDex demoCatalog "u1" [tagA, tagC] ∧
      ({ entryA with encounterCount := 2, mediaIds := ["m1", "m2"]
         } : ScubaDexEntry).encounterCount =
        ({ entryA with encounterCount := 2, mediaIds := ["m1", "m2"]
           } : ScubaDexEntry).mediaIds.length :=
  ⟨by decide, by decide,
    scubaDex_count_eq_evidence demoCatalog "u1" [tagA, tagC] _
      (by decide) (by decide)⟩

/-- The species-id trace of one `upsertTag` step: the species id is
appended exactly when the species is in the catalog and not yet
present. -/
def addId (catalog : List Species) (ids : List String) (t : SpeciesTag) :
    List String :=
  if (catalog.find? (fun s => s.id == t.speciesId)).isSome
      && !(ids.contains t.speciesId) then
    ids ++ [t.speciesId]
  else ids

theorem upsertTag_map_speciesId (catalog : List Species)
    (acc : List ScubaDexEntry) (t : SpeciesTag) :
    (upsertTag catalog acc t).map (fun e => e.speciesId)
      = addId catalog (acc.map (fun e => e.speciesId)) t := by
  unfold upsertTag addId
  cases hf : catalog.find? (fun s => s.id == t.speciesId) with
  | none => simp
  | some sp =>
    by_cases hm : t.speciesId ∈ acc.map (fun e => e.speciesId)
    · have hany : (acc.any fun e => e.speciesId == t.speciesId) = true := by
        rw [List.any_eq_true]
        obtain ⟨e, he, heq⟩ := List.mem_map.mp hm
        exact ⟨e, he, by simp [heq]⟩
      have hcon : ((acc.map (fun e => e.speciesId)).contains t.speciesId) = true := by
        simpa using hm
      simp only [hany, eq_self_iff_true, if_true, Option.isSome_some,
        Bool.true_and, hcon, Bool.not_true, Bool.false_eq_true, if_false,
        List.map_map]
      apply List.map_congr_left
      intro e _
      by_cases h : e.speciesId = t.speciesId <;> simp [Function.comp, h]
    · have hany : (acc.any fun e => e.speciesId == t.speciesId) = false := by
        rw [List.any_eq_false]
        intro e he hbe
        exact hm (List.mem_map.mpr ⟨e, he, by simpa using hbe⟩)
      have hcon : ((acc.map (fun e => e.speciesId)).contains t.speciesId) = false := by
        simpa using hm
      simp only [hany, Bool.false_eq_true, if_false, Option.isSome_some,
        Bool.true_and, hcon, Bool.not_false, eq_self_iff_true, if_true,
        List.map_append, List.map_cons, List.map_nil]

theorem foldl_upsertTag_map_speciesId (catalog : List Species) :
    ∀ (l : List SpeciesTag) (acc : List ScubaDexEntry),
      (l.foldl (upsertTag catalog) acc).map (fun e => e.speciesId)
        = l.foldl (addId catalog) (acc.map (fun e => e.speciesId))
  | [], _ => rfl
  | t :: l, acc => by
    rw [List.foldl_cons, List.foldl_cons,
      foldl_upsertTag_map_speciesId catalog l _, upsertTag_map_speciesId]

theorem foldl_addId_nodup (catalog : List Species) :
    ∀ (l : List SpeciesTag) (ids : List String), ids.Nodup →
      (l.foldl (addId catalog) ids).Nodup
  | [], _, h => h
  | t :: l, ids, h => by
    rw [List.foldl_cons]
    apply foldl_addId_nodup catalog l
    unfold addId
    split
    · rename_i hc
      rw [List.nodup_append]
      refine ⟨h, List.nodup_singleton _, ?_⟩
      intro x hx hx2
      rw [List.mem_singleton] at hx2
      subst hx2
      have hcon : ids.contains t.speciesId = true := by simpa using hx
      rw [hcon] at hc
      simp at hc
    · exact h

theorem mem_foldl_addId (catalog : List Species) :
    ∀ (l : List SpeciesTag) (ids : List String) (x : String),
      x ∈ l.foldl (addId catalog) ids ↔
        x ∈ ids ∨ x ∈ (l.filter (fun t =>
          (catalog.find? (fun s => s.id == t.speciesId)).isSome)).map
            (fun t => t.speciesId)
  | [], ids, x => by simp
  | t :: l, ids, x => by
    rw [List.foldl_cons, mem_foldl_addId catalog l _ x]
    unfold addId
    by_cases hf : (catalog.find? (fun s => s.id == t.speciesId)).isSome = true
    · by_cases hc : t.speciesId ∈ ids
      · rw [if_neg (by simp [hc])]
        rw [List.filter_cons_of_pos (by simpa using hf)]
        simp only [List.map_cons, List.mem_cons]
        constructor
        · rintro (h | h)
          · exact Or.inl h
          · exact Or.inr (Or.inr h)
        · rintro (h | h | h)
          · exact Or.inl h
          · exact Or.inl (h ▸ hc)
          · exact Or.inr h
      · rw [if_pos (by simp [hf, hc])]
        rw [List.filter_cons_of_pos (by simpa using hf)]
        simp only [List.map_cons, List.mem_cons, List.mem_append,
          List.mem_singleton, List.not_mem_nil, or_false]
        constructor
        · rintro ((h | h) | h)
          · exact Or.inl h
          · exact Or.inr (Or.inl h)
          · exact Or.inr (Or.inr h)
        · rintro (h | h | h)
          · exact Or.inl (Or.inl h)
          · exact Or.inl (Or.inr h)
          · exact Or.inr h
    · rw [if_neg (by simp [hf])]
      rw [List.filter_cons_of_neg (by simpa using hf)]

/-- C3 counterexample: a tag whose species id is not in the catalog is
counted by the stats totalSpecies (1) but skipped entirely by the
ScubaDex derivation (0 entries), so totalSpecies drifts from the entry
count. -/
theorem stats_totalSpecies_drift :
    (stats "u1" [] [] [tagU] []).totalSpecies = 1 ∧
      (scubaDex demoCatalog "u1" [tagU]).length = 0 :=
  ⟨by decide, by decide⟩

/-- C3 amended: the derived totalSpecies equals the number of derived
ScubaDexEntry rows provided every species id tagged by the user occurs
in the species catalog; a tag with an unknown species id is counted by
totalSpecies but produces no entry. -/
theorem stats_totalSpecies_eq_scubaDex_length (catalog : List Species)
    (uid : String) (diveLogs : List DiveLog) (media : List Media)
    (speciesTags : List SpeciesTag) (userBadges : List UserBadge)
    (hcat : ∀ t ∈ userTags uid speciesTags,
      (catalog.find? (fun s => s.id == t.speciesId)).isSome = true) :
    (stats uid diveLogs media speciesTags userBadges).totalSpecies
      = (scubaDex catalog uid speciesTags).length := by
  have hlen : (scubaDex catalog uid speciesTags).length
      = (scubaDexEntries catalog uid speciesTags).length :=
    (stableSort_perm _ _).length_eq
  have hmap := foldl_upsertTag_map_speciesId catalog (userTags uid speciesTags) []
  have hGlen : (scubaDexEntries catalog uid speciesTags).length
      = ((userTags uid speciesTags).foldl (addId catalog) []).length := by
    have h2 := congrArg List.length hmap
    simpa [scubaDexEntries] using h2
  have hGnodup : ((userTags uid speciesTags).foldl (addId catalog)
      ([] : List String)).Nodup :=
    foldl_addId_nodup catalog _ [] List.nodup_nil
  have hdnodup :=
    List.nodup_dedup ((userTags uid speciesTags).map (fun t => t.speciesId))
  have hcard : ((userTags uid speciesTags).foldl (addId catalog)
        ([] : List String)).length
      = ((userTags uid speciesTags).map (fun t => t.speciesId)).dedup.length := by
    rw [← List.toFinset_card_of_nodup hGnodup, ← List.toFinset_card_of_nodup hdnodup]
    congr 1
    ext x
    rw [List.mem_toFinset, List.mem_toFinset, List.mem_dedup,
      mem_foldl_addId catalog]
    simp only [List.not_mem_nil, false_or]
    constructor
    · intro hx
      obtain ⟨t, ht, heq⟩ := List.mem_map.mp hx
      exact List.mem_map.mpr ⟨t, List.mem_of_mem_filter ht, heq⟩
    · intro hx
      obtain ⟨t, ht, heq⟩ := List.mem_map.mp hx
      exact List.mem_map.mpr ⟨t, List.mem_filter.mpr ⟨ht, hcat t ht⟩, heq⟩
  show ((speciesTags.filter (fun t => t.userId == uid)).map
      (fun t => t.speciesId)).dedup.length = _
  rw [hlen, hGlen, hcard]
  rfl

/-- Witness for the amended C3 at a concrete state whose tags all carry
catalog species ids. -/
theorem stats_totalSpecies_eq_scubaDex_length_witness :
    (∀ t ∈ userTags "u1" [tagA, tagC],
        (demoCatalog.find? (fun s => s.id == t.speciesId)).isSome = true) ∧
      (stats "u1" [] [] [tagA, tagC] []).totalSpecies
        = (scubaDex demoCatalog "u1" [tagA, tagC]).length :=
  ⟨by decide,
    stats_totalSpecies_eq_scubaDex_length demoCatalog "u1" [] [] [tagA, tagC] []
      (by decide)⟩

/-- C4: when the only species tag of a user is for species sp-003 on
media m1, deleting media m1 (which also removes the tags referencing it)
leaves that user with an empty derived ScubaDex — in particular no entry
for sp-003 — and the derived totalSpecies drops by exactly one. -/
theorem handleDelete_removes_scubaDex_entry (catalog : List Species)
    (uid : String) (diveLogs : List DiveLog) (media : List Media)
    (speciesTags : List SpeciesTag) (userBadges : List UserBadge)
    (t : SpeciesTag)
    (honly : speciesTags.filter (fun tg => tg.userId == uid) = [t])
    (_hsp : t.speciesId = "sp-003") (hmid : t.mediaId = "m1") :
    scubaDex catalog uid (handleDelete media speciesTags "m1").2 = [] ∧
      (stats uid diveLogs (handleDelete media speciesTags "m1").1
          (handleDelete media speciesTags "m1").2 userBadges).totalSpecies + 1
        = (stats uid diveLogs media speciesTags userBadges).totalSpecies := by
  have hkey : (handleDelete media speciesTags "m1").2.filter
      (fun tg => tg.userId == uid) = [] := by
    show (speciesTags.filter (fun tg => !(tg.mediaId == "m1"))).filter
        (fun tg => tg.userId == uid) = []
    rw [List.filter_filter]
    have h2 : speciesTags.filter
          (fun tg => (tg.userId == uid) && !(tg.mediaId == "m1"))
        = (speciesTags.filter (fun tg => tg.userId == uid)).filter
            (fun tg => !(tg.mediaId == "m1")) := by
      rw [List.filter_filter]
      apply List.filter_congr
      intro x _
      exact Bool.and_comm _ _
    rw [h2, honly]
    simp [hmid]
  constructor
  · show stableSort _
      (((handleDelete media speciesTags "m1").2.filter
        (fun tg => tg.userId == uid)).foldl (upsertTag catalog) []) = []
    rw [hkey]
    rfl
  · show ((((handleDelete media speciesTags "m1").2.filter
        (fun tg => tg.userId == uid)).map (fun tg => tg.speciesId)).dedup).length + 1
      = (((speciesTags.filter (fun tg => tg.userId == uid)).map
          (fun tg => tg.speciesId)).dedup).length
    rw [hkey, honly]
    simp

/-- Witness for C4 at a concrete one-tag state. -/
theorem handleDelete_removes_scubaDex_entry_witness :
    [tagA].filter (fun tg => tg.userId == "u1") = [tagA] ∧
      tagA.speciesId = "sp-003" ∧ tagA.mediaId = "m1" ∧
      scubaDex demoCatalog "u1"
          (handleDelete [{ id := "m1", userId := "u1", diveLogId := "d1" }]
            [tagA] "m1").2 = [] ∧
      (stats "u1" []
          (handleDelete [{ id := "m1", userId := "u1", diveLogId := "d1" }]
            [tagA] "m1").1
          (handleDelete [{ id := "m1", userId := "u1", diveLogId := "d1" }]
            [tagA] "m1").2 []).totalSpecies + 1
        = (stats "u1" [] [{ id := "m1", userId := "u1", diveLogId := "d1" }]
            [tagA] []).totalSpecies :=
  ⟨by decide, by decide, by decide,
    handleDelete_removes_scubaDex_entry demoCatalog "u1" []
      [{ id := "m1", userId := "u1", diveLogId := "d1" }] [tagA] [] tagA
      (by decide) (by decide) (by decide)⟩

/-! Characterisation of the depth fold used by `stats.deepestDive`. -/

theorem le_foldl_max_init : ∀ (l : List DiveLog) (a : ℚ),
    a ≤ l.foldl (fun m d => max m d.depth) a
  | [], a => le_refl a
  | d :: l, a =>
    le_trans (le_max_left a d.depth) (le_foldl_max_init l (max a d.depth))

theorem mem_le_foldl_max : ∀ (l : List DiveLog) (a : ℚ) (d : DiveLog),
    d ∈ l → d.depth ≤ l.foldl (fun m d => max m d.depth) a
  | d0 :: l, a, d, hd => by
    rcases List.mem_cons.mp hd with h | h
    · subst h
      exact le_trans (le_max_right a d.depth) (le_foldl_max_init l (max a d.depth))
    · exact mem_le_foldl_max l (max a d0.depth) d h

theorem foldl_max_eq_init_or_mem : ∀ (l : List DiveLog) (a : ℚ),
    l.foldl (fun m d => max m d.depth) a = a ∨
      ∃ d ∈ l, l.foldl (fun m d => max m d.depth) a = d.depth
  | [], _ => Or.inl rfl
  | d0 :: l, a => by
    rw [List.foldl_cons]
    rcases foldl_max_eq_init_or_mem l (max a d0.depth) with h | ⟨d, hd, heq⟩
    · rcases max_choice a d0.depth with h2 | h2
      · exact Or.inl (by rw [h, h2])
      · exact Or.inr ⟨d0, List.mem_cons_self d0 l, by rw [h, h2]⟩
    · exact Or.inr ⟨d, List.mem_cons_of_mem d0 hd, heq⟩

/-- C7: after any dive deletion, the recomputed deepestDive is an upper
bound of the depths of the user s remaining dives, is 0 when no dive
remains, and is attained by one of the remaining dives otherwise (for
stores whose depths are nonnegative). -/
theorem deepestDive_after_delete (uid diveId : String)
    (diveLogs : List DiveLog) (media : List Media)
    (speciesTags : List SpeciesTag) (userBadges : List UserBadge)
    (hpos : ∀ d ∈ diveLogs, 0 ≤ d.depth) :
    (∀ d ∈ (handleDeleteDive diveLogs diveId).filter (fun d => d.userId == uid),
      d.depth ≤ (stats uid (handleDeleteDive diveLogs diveId) media
        speciesTags userBadges).deepestDive) ∧
    ((handleDeleteDive diveLogs diveId).filter (fun d => d.userId == uid) = [] →
      (stats uid (handleDeleteDive diveLogs diveId) media
        speciesTags userBadges).deepestDive = 0) ∧
    ((handleDeleteDive diveLogs diveId).filter (fun d => d.userId == uid) ≠ [] →
      ∃ d ∈ (handleDeleteDive diveLogs diveId).filter (fun d => d.userId == uid),
        (stats uid (handleDeleteDive diveLogs diveId) media
          speciesTags userBadges).deepestDive = d.depth) := by
  have hdd : (stats uid (handleDeleteDive diveLogs diveId) media
        speciesTags userBadges).deepestDive
      = ((handleDeleteDive diveLogs diveId).filter
          (fun d => d.userId == uid)).foldl (fun m d => max m d.depth) 0 := rfl
  refine ⟨?_, ?_, ?_⟩
  · intro d hd
    rw [hdd]
    exact mem_le_foldl_max _ 0 d hd
  · intro h
    rw [hdd, h]
    rfl
  · intro hne
    rcases foldl_max_eq_init_or_mem ((handleDeleteDive diveLogs diveId).filter
        (fun d => d.userId == uid)) 0 with h | ⟨d, hd, heq⟩
    · obtain ⟨d0, hd0⟩ := List.exists_mem_of_ne_nil _ hne
      have h1 : d0.depth ≤ 0 := by
        have := mem_le_foldl_max ((handleDeleteDive diveLogs diveId).filter
          (fun d => d.userId == uid)) 0 d0 hd0
        rw [h] at this
        exact this
      have h2 : 0 ≤ d0.depth := by
        apply hpos
        have hm1 := (List.mem_filter.mp hd0).1
        exact (List.mem_filter.mp hm1).1
      refine ⟨d0, hd0, ?_⟩
      rw [hdd, h]
      exact (le_antisymm h1 h2).symm
    · exact ⟨d, hd, by rw [hdd]; exact heq⟩

/-- Witness for C7: deleting the deepest dive of a two-dive user. -/
theorem deepestDive_after_delete_witness :
    (∀ d ∈ ([{ id := "d1", userId := "u1", depth := 30, duration := 40 },
             { id := "d2", userId := "u1", depth := 20, duration := 50 }] :
        List DiveLog), 0 ≤ d.depth) ∧
      ∃ d ∈ (handleDeleteDive
          [{ id := "d1", userId := "u1", depth := 30, duration := 40 },
           { id := "d2", userId := "u1", depth := 20, duration := 50 }] "d1").filter
            (fun d => d.userId == "u1"),
        (stats "u1" (handleDeleteDive
          [{ id := "d1", userId := "u1", depth := 30, duration := 40 },
           { id := "d2", userId := "u1", depth := 20, duration := 50 }] "d1")
          [] [] []).deepestDive = d.depth :=
  ⟨by decide,
    (deepestDive_after_delete "u1" "d1"
      [{ id := "d1", userId := "u1", depth := 30, duration := 40 },
       { id := "d2", userId := "u1", depth := 20, duration := 50 }] [] [] []
      (by decide)).2.2 (by decide)⟩

/-! Characterisation of one badge-award run. -/

theorem newBadges_eq_filter_map (defs : List Badge) (st : StatsResult)
    (uid now : String) (ub : List UserBadge) :
    newBadges defs st uid now ub
      = (defs.filter (fun b => !(alreadyEarned ub uid b.id) && badgeEarned st b)).map
          (fun b => { userId := uid, badgeId := b.id, earnedAt := now }) := by
  suffices haux : ∀ (ds : List Badge) (acc : List UserBadge),
      ds.foldl (fun acc b =>
          if alreadyEarned ub uid b.id then acc
          else if badgeEarned st b then
            acc ++ [{ userId := uid, badgeId := b.id, earnedAt := now }]
          else acc) acc
        = acc ++ (ds.filter
            (fun b => !(alreadyEarned ub uid b.id) && badgeEarned st b)).map
              (fun b => { userId := uid, badgeId := b.id, earnedAt := now }) by
    simpa [newBadges] using haux defs []
  intro ds
  induction ds with
  | nil => intro acc; simp
  | cons b ds ih =>
    intro acc
    rw [List.foldl_cons]
    by_cases h1 : alreadyEarned ub uid b.id = true
    · rw [if_pos h1, ih, List.filter_cons_of_neg (by simp [h1])]
    · by_cases h2 : badgeEarned st b = true
      · rw [if_neg h1, if_pos h2, ih,
          List.filter_cons_of_pos (by simp [h2]; simpa using h1)]
        simp
      · rw [if_neg h1, if_neg h2, ih,
          List.filter_cons_of_neg (by simp [h2])]

theorem awardBadges_eq_append (defs : List Badge) (st : StatsResult)
    (uid now : String) (ub : List UserBadge) :
    awardBadges defs st uid now ub = ub ++ newBadges defs st uid now ub := by
  show (if (newBadges defs st uid now ub).length > 0
      then ub ++ newBadges defs st uid now ub else ub)
    = ub ++ newBadges defs st uid now ub
  split
  · rfl
  · rename_i h
    have hnil : newBadges defs st uid now ub = [] := by
      cases hnb : newBadges defs st uid now ub with
      | nil => rfl
      | cons x xs => rw [hnb] at h; simp at h
    rw [hnil]
    simp

theorem badgePairs_nodup_awardBadges (defs : List Badge) (st : StatsResult)
    (uid now : String) (ub : List UserBadge)
    (hids : (defs.map (fun b => b.id)).Nodup)
    (hub : (badgePairs ub).Nodup) :
    (badgePairs (awardBadges defs st uid now ub)).Nodup := by
  rw [awardBadges_eq_append]
  unfold badgePairs
  rw [List.map_append, List.nodup_append]
  refine ⟨hub, ?_, ?_⟩
  · rw [newBadges_eq_filter_map, List.map_map]
    have hsub : ((defs.filter
        (fun b => !(alreadyEarned ub uid b.id) && badgeEarned st b)).map
          (fun b => b.id)).Nodup :=
      List.Nodup.sublist (List.Sublist.map _ (List.filter_sublist defs)) hids
    have hinj : Function.Injective (fun i : String => (uid, i)) := by
      intro a b h
      simpa using congrArg Prod.snd h
    have hrw : (defs.filter
          (fun b => !(alreadyEarned ub uid b.id) && badgeEarned st b)).map
            ((fun r : UserBadge => (r.userId, r.badgeId)) ∘
              (fun b => { userId := uid, badgeId := b.id, earnedAt := now }))
        = ((defs.filter
            (fun b => !(alreadyEarned ub uid b.id) && badgeEarned st b)).map
              (fun b => b.id)).map (fun i => (uid, i)) := by
      rw [List.map_map]
      rfl
    rw [hrw]
    exact hsub.map hinj
  · intro x hx hx2
    rw [newBadges_eq_filter_map, List.map_map] at hx2
    obtain ⟨b, hbf, hbx⟩ := List.mem_map.mp hx2
    obtain ⟨r, hr, hrx⟩ := List.mem_map.mp hx
    have hcond := (List.mem_filter.mp hbf).2
    have hae : alreadyEarned ub uid b.id = true := by
      rw [alreadyEarned, List.any_eq_true]
      refine ⟨r, hr, ?_⟩
      have hx1 : (r.userId, r.badgeId) = (uid, b.id) := by
        rw [hrx, ← hbx]
        rfl
      have h1 : r.userId = uid := congrArg Prod.fst hx1
      have h2 : r.badgeId = b.id := congrArg Prod.snd hx1
      simp [h1, h2]
    rw [hae] at hcond
    simp at hcond

/-- C5: across any sequence of badge-evaluation runs (each with its own
stats snapshot, user and timestamp), the stored badge-award collection
never contains a (userId, badgeId) pair twice, provided the badge table
has pairwise-distinct badge ids and the initial collection had no
duplicate pair: a run only creates awards for badges the user has not
already earned. -/
theorem runBadgeChecks_no_duplicate_pair (defs : List Badge)
    (runs : List (StatsResult × String × String)) :
    ∀ ub : List UserBadge, (defs.map (fun b => b.id)).Nodup →
      (badgePairs ub).Nodup → (badgePairs (runBadgeChecks defs runs ub)).Nodup := by
  induction runs with
  | nil => intro ub _ hub; exact hub
  | cons r runs ih =>
    intro ub hids hub
    rw [runBadgeChecks, List.foldl_cons]
    exact ih _ hids (badgePairs_nodup_awardBadges defs r.1 r.2.1 r.2.2 ub hids hub)

/-- A one-badge table fixture. -/
def demoBadges : List Badge :=
  [{ id := "badge-1", category := BadgeCategory.dives, requirement := 1 }]

/-- A stats fixture crossing the demo badge threshold. -/
def demoStats : StatsResult :=
  { totalDives := 1, totalSpecies := 0, deepestDive := 0, totalDiveTime := 0,
    totalMedia := 0, totalBadges := 0 }

/-- Witness for C5: evaluating the same threshold-crossing stats twice
awards the badge once and leaves no duplicate pair. -/
theorem runBadgeChecks_no_duplicate_pair_witness :
    (demoBadges.map (fun b => b.id)).Nodup ∧
      (badgePairs ([] : List UserBadge)).Nodup ∧
      (badgePairs (runBadgeChecks demoBadges
        [(demoStats, "u1", "t0"), (demoStats, "u1", "t1")] [])).Nodup :=
  ⟨by decide, by decide,
    runBadgeChecks_no_duplicate_pair demoBadges
      [(demoStats, "u1", "t0"), (demoStats, "u1", "t1")] []
      (by decide) (by decide)⟩

/-- C10: badge definitions with category social never produce an award:
a badge-evaluation run over any stats, user and stored collection gives
the same result whether or not the social badges are in the table, since
the category switch has no social case and leaves earned false. -/
theorem social_badges_never_awarded (defs : List Badge) (st : StatsResult)
    (uid now : String) (ub : List UserBadge) :
    awardBadges defs st uid now ub
      = awardBadges (defs.filter (fun b => !(b.category == BadgeCategory.social)))
          st uid now ub := by
  rw [awardBadges_eq_append, awardBadges_eq_append]
  congr 1
  rw [newBadges_eq_filter_map, newBadges_eq_filter_map, List.filter_filter]
  congr 1
  apply List.filter_congr
  intro b _
  by_cases hsoc : b.category = BadgeCategory.social
  · have hbe : badgeEarned st b = false := by
      rw [badgeEarned, hsoc]
    simp [hbe, hsoc]
  · have : (b.category == BadgeCategory.social) = false := by
      simpa using hsoc
    simp [this]

/-! Leaderboard theorems. -/

/-- A users-store fixture holding two users in descending-id order. -/
def demoUsers : List User :=
  [{ id := "u2", username := "beta" }, { id := "u1", username := "alpha" }]

/-- C6 counterexample: with two stored users of equal metric value (no
dives at all) in descending-id store order, the rebuilt leaderboard
keeps the store order u2 before u1, not ascending userId. -/
theorem leaderboard_tie_not_ascending_userId :
    (filteredStats demoUsers [] [] [] [] "u1" LeaderboardType.all
        Metric.totalDives).map (fun s => s.userId) = ["u2", "u1"] ∧
      (filteredStats demoUsers [] [] [] [] "u1" LeaderboardType.all
          Metric.totalDives).map (fun s => metricVal Metric.totalDives s)
        = [0, 0] :=
  ⟨by decide, by decide⟩

/-- C6 amended: the rebuilt leaderboard is a permutation of the filtered
stats rows sorted in descending order of the chosen metric; it is the
same sequence on every rebuild from the same stores (the computation is
a pure function), but rows with equal metric values stay in users-store
order via the stable sort rather than being reordered by ascending
userId. -/
theorem filteredStats_sorted_desc (users : List User)
    (diveLogs : List DiveLog) (media : List Media)
    (speciesTags : List SpeciesTag) (friendships : List Friendship)
    (me : String) (ltype : LeaderboardType) (m : Metric) :
    (filteredStats users diveLogs media speciesTags friendships me ltype m).Pairwise
        (fun a b => metricVal m b ≤ metricVal m a) ∧
      (filteredStats users diveLogs media speciesTags friendships me ltype m).Perm
        (leaderboardPool users diveLogs media speciesTags friendships me ltype) := by
  constructor
  · have h := stableSort_pairwise
      (fun a b => decide (metricVal m b ≤ metricVal m a))
      (fun a b c h1 h2 => decide_eq_true
        (le_trans (of_decide_eq_true h2) (of_decide_eq_true h1)))
      (fun a b => by
        rcases le_total (metricVal m b) (metricVal m a) with h | h
        · exact Or.inl (decide_eq_true h)
        · exact Or.inr (decide_eq_true h))
      (leaderboardPool users diveLogs media speciesTags friendships me ltype)
    exact h.imp (fun hab => of_decide_eq_true hab)
  · exact stableSort_perm _ _

/-- C9: the friends-scoped leaderboard always contains a row for the
logged-in user, for every metric and friendship store, as long as the
user record is present in the users store — the code adds the current
user id to the friend-id set before filtering. -/
theorem friends_leaderboard_contains_self (users : List User)
    (diveLogs : List DiveLog) (media : List Media)
    (speciesTags : List SpeciesTag) (friendships : List Friendship)
    (me : String) (m : Metric) (hme : ∃ u ∈ users, u.id = me) :
    ∃ s ∈ filteredStats users diveLogs media speciesTags friendships me
        LeaderboardType.friends m, s.userId = me := by
  obtain ⟨u, hu, huid⟩ := hme
  have hrow : ∃ s ∈ leaderboardPool users diveLogs media speciesTags
      friendships me LeaderboardType.friends, s.userId = me := by
    have hmem : ∃ s ∈ computeUserStats users diveLogs media speciesTags,
        s.userId = me := by
      refine ⟨_, List.mem_map.mpr ⟨u, hu, rfl⟩, huid⟩
    obtain ⟨s, hs, hsid⟩ := hmem
    refine ⟨s, ?_, hsid⟩
    show s ∈ (computeUserStats users diveLogs media speciesTags).filter
      (fun s => (friendIds friendships me).contains s.userId)
    rw [List.mem_filter]
    refine ⟨hs, ?_⟩
    have : me ∈ friendIds friendships me := by
      unfold friendIds
      exact List.mem_append.mpr (Or.inr (List.mem_singleton.mpr rfl))
    rw [hsid]
    simpa using this
  obtain ⟨s, hs, hsid⟩ := hrow
  exact ⟨s, (stableSort_perm _ _).mem_iff.mpr hs, hsid⟩

/-- Witness for C9: a user with no friendships still appears in their
own friends leaderboard. -/
theorem friends_leaderboard_contains_self_witness :
    (∃ u ∈ demoUsers, u.id = "u1") ∧
      ∃ s ∈ filteredStats demoUsers [] [] [] [] "u1"
          LeaderboardType.friends Metric.totalDives, s.userId = "u1" :=
  ⟨by decide,
    friends_leaderboard_contains_self demoUsers [] [] [] [] "u1"
      Metric.totalDives (by decide)⟩

end ReefConnect
